import Mathlib

/-!
Verification development for the prosolia pipeline (prosolia/pipeline.py).

Shallow embedding of the four pipeline functions: load_audio, apply_gammatone,
apply_dct and apply_pitch. External dependencies (soundfile, the gammatone
library, scipy.fftpack.dct, numpy, the Kaldi subprocess) are modelled from
their documented behaviour at exactly the granularity the pipeline relies on;
every effectful step of apply_pitch is threaded through an explicit
environment and state, so the Python control flow (assert, try/finally,
exceptions) is embedded as a total function.
-/

namespace Prosolia

/-! ### Python exception values -/

/-- Exception values the embedded pipeline functions can raise. -/
inductive PyError where
  /-- assert failure (line 183); carries the formatted message -/
  | assertionError (msg : String)
  /-- failure while opening or writing the scp manifest (line 191) -/
  | ioError
  /-- OS-level failure of mkdtemp (line 187) or Popen (line 204) -/
  | osError
  /-- RuntimeError of lines 209-210, carried structurally as the invoked
      command line and the exit code it formats into its message -/
  | runtimeError (command : String) (returncode : Int)
  /-- np.loadtxt failure on a missing or malformed file (line 213) -/
  | valueError
  /-- too many indices into a 1-D numpy array (line 214) -/
  | indexError
  /-- a local name referenced before assignment (finally block, line 217,
      when mkdtemp itself failed) -/
  | nameError
  /-- decoding failure inside soundfile.read (line 48) -/
  | soundfileError
  deriving DecidableEq

/-! ### load_audio (pipeline.py lines 27-54) -/

/-- Decoded audio content as returned by the external soundfile.read: a mono
file decodes to a 1-D array of samples, a multi-channel file to a 2-D
frames-by-channels array. -/
inductive AudioData where
  | mono (samples : List ℚ)
  | multi (frames : List (List ℚ))
  deriving DecidableEq

/-- Number of channels of a decoded array. -/
def channelCount : AudioData → Nat
  | AudioData.mono _ => 1
  | AudioData.multi frames => (frames.getD 0 []).length

/-- Result of the external soundfile.read call: decoded data and sample rate. -/
structure SoundFileOutput where
  data : AudioData
  sampleFrequency : Nat
  deriving DecidableEq

/-- Embedding of load_audio (lines 27-54). soundfile.read is external, so its
outcome is the argument; none models a decode failure, which propagates as an
exception. The function performs no channel-count check of its own: it returns
whatever was decoded, together with the sample rate. -/
def load_audio : Option SoundFileOutput → Except PyError (AudioData × Nat)
  | none => Except.error PyError.soundfileError
  | some r => Except.ok (r.data, r.sampleFrequency)

/-! ### apply_gammatone (pipeline.py lines 57-126) -/

/-- Energy-matrix element values. The numeric content of the gammatone
filterbank output is computed by the external gammatone library (a declared
non-goal of the spec), so filterbank cells and center frequencies are carried
symbolically, parameterized by every input they depend on; the two compression
lambdas of lines 119-120 wrap elements symbolically as well. -/
inductive EVal where
  /-- windowed subband energy of the external gtgram, one per (row, col) -/
  | cell (data : List ℚ) (fs wt ot lowCf : ℚ) (channels row col : Nat)
  /-- element idx of the external erb_space(lo, hi, count) -/
  | erb (lo hi : ℚ) (count idx : Nat)
  /-- 20 * log10 v, the log-compression lambda of line 119 -/
  | log20 (v : EVal)
  /-- v ** (1/3), the cubic-compression lambda of line 120 -/
  | powThird (v : EVal)
  deriving DecidableEq

/-- Modelled from the external gammatone library
(gtgram.round_half_away_from_zero): sign(num) * floor(abs(num) + 0.5). -/
def roundHalfAwayFromZero (x : ℚ) : Int :=
  if x < 0 then -(Int.floor (-x + 1 / 2)) else Int.floor (x + 1 / 2)

/-- Integration window length in samples (gammatone gtgram_strides). -/
def gtgramNWin (fs wt : ℚ) : Int := roundHalfAwayFromZero (wt * fs)

/-- Window advance in samples (gammatone gtgram_strides). -/
def gtgramHop (fs ot : ℚ) : Int := roundHalfAwayFromZero (ot * fs)

/-- Number of output time frames (gammatone gtgram_strides):
1 + floor((len - nwin) / hop), where len is the waveform length. -/
def gtgramNCols (len : Nat) (fs wt ot : ℚ) : Int :=
  1 + Int.floor (((len : ℚ) - (gtgramNWin fs wt : ℚ)) / (gtgramHop fs ot : ℚ))

/-- Modelled from the external gammatone library: gtgram returns a
channels-by-frames matrix, one row per filterbank channel and one column per
integration window; cell values are symbolic. -/
def gtgram (data : List ℚ) (fs wt ot : ℚ) (channels : Nat) (lowCf : ℚ) :
    List (List EVal) :=
  (List.range channels).map fun r =>
    (List.range (gtgramNCols data.length fs wt ot).toNat).map fun c =>
      EVal.cell data fs wt ot lowCf channels r c

/-- Modelled from the external gammatone library: erb_space(lo, hi, n) returns
n center frequencies (in descending order); values are symbolic. -/
def erb_space (lo hi : ℚ) (n : Nat) : List EVal :=
  (List.range n).map fun i => EVal.erb lo hi n i

/-- The compression dict of lines 119-120 viewed as a lookup: only the keys
"log" and "cubic" are present; looking up any other key raises KeyError,
which the except clause of lines 123-124 swallows (pass). -/
def compressLookup (c : Option String) : Option (EVal → EVal) :=
  if c = some "log" then some EVal.log20
  else if c = some "cubic" then some EVal.powThird
  else none

/-- Embedding of apply_gammatone (lines 57-126): take the reversed erb_space
center frequencies (line 111), flip the gtgram output upside down (reverse its
row list, line 114), apply the looked-up compression elementwise or pass when
the key is absent (lines 119-124), and return the pair. -/
def apply_gammatone (data : List ℚ) (fs : ℚ) (nbChannels : Nat) (lowCf wt ot : ℚ)
    (compression : Option String) : List (List EVal) × List EVal :=
  let cfs := (erb_space lowCf (fs / 2) nbChannels).reverse
  let output := (gtgram data fs wt ot nbChannels lowCf).reverse
  let compressed :=
    match compressLookup compression with
    | some f => output.map fun row => row.map f
    | none => output
  (compressed, cfs)

/-- Numeric semantics of the cubic-compression lambda of line 120 under numpy:
X ** (1/3) elementwise, which is NaN (modelled as none) for a negative base
and the real power for a nonnegative one. -/
noncomputable def cubicCompression (x : ℝ) : Option ℝ :=
  if 0 ≤ x then some (x ^ ((1 : ℝ) / 3)) else none

/-! ### apply_dct (pipeline.py lines 129-160) -/

/-- Entry (n, j) of a row-major matrix, 0 outside its extent. -/
def matEntry (x : List (List ℝ)) (n j : Nat) : ℝ := (x.getD n []).getD j 0

/-- The DCT-II basis cosine cos(pi k (2n+1) / (2N)). -/
noncomputable def dctCos (N k n : Nat) : ℝ :=
  Real.cos (Real.pi * (k : ℝ) * (2 * (n : ℝ) + 1) / (2 * (N : ℝ)))

/-- Modelled from scipy.fftpack.dct (type 2, axis 0, no normalization):
y[k][j] = 2 * sum over n below N of x[n][j] * cos(pi k (2n+1) / (2N)),
with N the number of rows of x. -/
noncomputable def scipyDct2 (x : List (List ℝ)) : List (List ℝ) :=
  (List.range x.length).map fun k =>
    (List.range (x.getD 0 []).length).map fun j =>
      2 * ∑ n ∈ Finset.range x.length, matEntry x n j * dctCos x.length k n

/-- Scipy ortho scaling factor for coefficient k: sqrt(1/(4N)) for k = 0 and
sqrt(1/(2N)) otherwise. -/
noncomputable def orthoScale (N k : Nat) : ℝ :=
  if k = 0 then Real.sqrt (1 / (4 * (N : ℝ))) else Real.sqrt (1 / (2 * (N : ℝ)))

/-- Modelled from scipy.fftpack.dct with norm set to ortho: the unnormalized
output row k is scaled by the ortho factor. -/
noncomputable def scipyDct2Ortho (x : List (List ℝ)) : List (List ℝ) :=
  (List.range x.length).map fun k =>
    (List.range (x.getD 0 []).length).map fun j =>
      orthoScale x.length k *
        (2 * ∑ n ∈ Finset.range x.length, matEntry x n j * dctCos x.length k n)

/-- Modelled from scipy.fftpack.dct: dispatch on the norm flag. -/
noncomputable def scipyDct (norm : Option String) (x : List (List ℝ)) :
    List (List ℝ) :=
  if norm = some "ortho" then scipyDct2Ortho x else scipyDct2 x

/-- Embedding of apply_dct (lines 129-160): any norm value other than the
string "ortho" is coerced to None (lines 154-155), then the scipy DCT output
is truncated to its first size rows (line 160). -/
noncomputable def apply_dct (data : List (List ℝ)) (norm : Option String)
    (size : Nat) : List (List ℝ) :=
  let nrm := if norm ≠ some "ortho" then none else norm
  (scipyDct nrm data).take size

/-- Entry n of row k of the effective ortho-normalized DCT coefficient
matrix: 2 * orthoScale * basis cosine. -/
noncomputable def dctOrthoEntry (N k n : Nat) : ℝ :=
  2 * orthoScale N k * dctCos N k n

/-- The cosine sums appearing in DCT row inner products:
sum over n below N of cos((2n+1) * m * pi / (2N)). -/
noncomputable def oddCosSum (N m : Nat) : ℝ :=
  ∑ n ∈ Finset.range N, Real.cos ((2 * (n : ℝ) + 1) * ((m : ℝ) * Real.pi / (2 * (N : ℝ))))

/-! ### apply_pitch (pipeline.py lines 163-217) -/

/-- Environment of one apply_pitch call: its inputs plus the outcomes of every
external effect (filesystem and subprocess), which the embedding threads
explicitly. -/
structure PitchEnv where
  kaldiRoot : String
  wavfile : String
  sampleFrequency : Nat
  /-- outcome of os.path.isfile on the resolved executable path (line 183) -/
  exeExists : Bool
  /-- whether tempfile.mkdtemp succeeds (line 187) -/
  mkdtempOk : Bool
  /-- the directory name mkdtemp returns -/
  tempdir : String
  /-- whether writing wav.scp succeeds (lines 190-194) -/
  scpWriteOk : Bool
  /-- whether subprocess.Popen launches the tool (lines 204-206) -/
  spawnOk : Bool
  /-- exit code of the launched tool (line 207) -/
  returncode : Int
  /-- whether np.loadtxt reads and parses pitch.txt (line 213) -/
  loadtxtOk : Bool
  /-- the parsed data rows: first two columns, header already skipped -/
  outputRows : List (ℚ × ℚ)
  deriving DecidableEq

/-- Observable state left behind by an apply_pitch call. -/
structure PitchState where
  /-- whether mkdtemp ever created the temporary directory -/
  tempdirCreated : Bool
  /-- whether the temporary directory still exists on return -/
  tempdirExists : Bool
  /-- how many times the external tool was launched -/
  spawnCount : Nat
  deriving DecidableEq

/-- The resolved executable path of lines 181-182:
os.path.join(kaldi_root, src, featbin, compute-kaldi-pitch-feats). -/
def kaldiPitchPath (root : String) : String :=
  root ++ "/src/featbin/compute-kaldi-pitch-feats"

/-- Path of the scp manifest inside the temporary directory (line 190). -/
def scpPath (tempdir : String) : String := tempdir ++ "/wav.scp"

/-- Path of the tool output inside the temporary directory (line 197). -/
def pitchPath (tempdir : String) : String := tempdir ++ "/pitch.txt"

/-- The command line built on lines 200-201. -/
def pitchCommand (env : PitchEnv) : String :=
  kaldiPitchPath env.kaldiRoot ++ " --sample-frequency="
    ++ toString env.sampleFrequency ++ " scp:" ++ scpPath env.tempdir
    ++ " ark,t:" ++ pitchPath env.tempdir

/-- Modelled from numpy: loadtxt squeezes a table with a single data row (or
none) to a 1-D array; two or more rows give a 2-D array. -/
inductive NpLoaded where
  | oneD (v : List ℚ)
  | twoD (rows : List (ℚ × ℚ))
  deriving DecidableEq

/-- np.loadtxt(pitch, skiprows=1, usecols=(0, 1)) applied to the parsed rows
(line 213). -/
def npLoadtxt : List (ℚ × ℚ) → NpLoaded
  | [] => NpLoaded.oneD []
  | [r] => NpLoaded.oneD [r.1, r.2]
  | rows => NpLoaded.twoD rows

/-- The column extraction a[:, 0].T, a[:, 1].T of line 214: two indices into
a 1-D array raise IndexError; on a 2-D array it returns the two columns. -/
def extractColumns : NpLoaded → Except PyError (List ℚ × List ℚ)
  | NpLoaded.oneD _ => Except.error PyError.indexError
  | NpLoaded.twoD rows => Except.ok (rows.map Prod.fst, rows.map Prod.snd)

/-- The try-block body of lines 185-214: mkdtemp, write the manifest, launch
the tool, check its exit code, load and slice the output table. Each step
either advances or raises; the state records directory creation and how many
times the tool was launched. -/
def pitchTryBody (env : PitchEnv) : Except PyError (List ℚ × List ℚ) × PitchState :=
  if env.mkdtempOk then
    if env.scpWriteOk then
      if env.spawnOk then
        if env.returncode = 0 then
          if env.loadtxtOk then
            (extractColumns (npLoadtxt env.outputRows), ⟨true, true, 1⟩)
          else (Except.error PyError.valueError, ⟨true, true, 1⟩)
        else
          (Except.error (PyError.runtimeError (pitchCommand env) env.returncode),
            ⟨true, true, 1⟩)
      else (Except.error PyError.osError, ⟨true, true, 0⟩)
    else (Except.error PyError.ioError, ⟨true, true, 0⟩)
  else (Except.error PyError.osError, ⟨false, false, 0⟩)

/-- Embedding of apply_pitch (lines 163-217): resolve the executable path and
assert it exists (before the try block, so before any directory or process is
created); run the try body; then the finally block: shutil.rmtree removes the
directory whenever the local name was bound, and raises on the unbound name
when mkdtemp itself failed. -/
def apply_pitch (env : PitchEnv) : Except PyError (List ℚ × List ℚ) × PitchState :=
  if env.exeExists then
    if (pitchTryBody env).2.tempdirCreated then
      ((pitchTryBody env).1, ⟨true, false, (pitchTryBody env).2.spawnCount⟩)
    else (Except.error PyError.nameError, (pitchTryBody env).2)
  else
    (Except.error
        (PyError.assertionError (kaldiPitchPath env.kaldiRoot ++ " not found")),
      ⟨false, false, 0⟩)

/-! ### Theorems settling the claims -/

/-- C3: when the pitch executable is absent under the installation root,
apply_pitch fails with the configuration error (AssertionError naming the
missing path) before any subprocess is spawned and before the temporary
directory is created: the final state shows no directory ever created and a
spawn count of zero. -/
theorem apply_pitch_missing_exe (env : PitchEnv) (h : env.exeExists = false) :
    apply_pitch env
      = (Except.error
          (PyError.assertionError (kaldiPitchPath env.kaldiRoot ++ " not found")),
        ⟨false, false, 0⟩) := by
  simp [apply_pitch, h]

theorem apply_pitch_missing_exe_witness :
    apply_pitch ⟨"/opt/kaldi", "x.wav", 16000, false, true, "/tmp/t", true, true, 0,
        true, []⟩
      = (Except.error
          (PyError.assertionError
            (kaldiPitchPath "/opt/kaldi" ++ " not found")),
        ⟨false, false, 0⟩) :=
  apply_pitch_missing_exe _ rfl

/-- C2: whenever apply_pitch created the temporary workspace directory, that
directory no longer exists when the call returns, on every exit path the
environment can select (success, nonzero exit, parsing failure, any other
exception raised after creation). -/
theorem apply_pitch_tempdir_cleanup (env : PitchEnv)
    (h : (apply_pitch env).2.tempdirCreated = true) :
    (apply_pitch env).2.tempdirExists = false := by
  unfold apply_pitch at h ⊢
  by_cases hex : env.exeExists = true
  · rw [if_pos hex] at h ⊢
    by_cases hc : (pitchTryBody env).2.tempdirCreated = true
    · rw [if_pos hc]
    · rw [if_neg hc] at h
      exact absurd h hc
  · rw [if_neg hex] at h
    exact absurd h (by simp)

theorem apply_pitch_tempdir_cleanup_witness :
    (apply_pitch ⟨"/opt/kaldi", "x.wav", 16000, true, true, "/tmp/t", true, true, 1,
        true, []⟩).2.tempdirExists = false :=
  apply_pitch_tempdir_cleanup _ (by decide)

/-- C6: when the executable exists and the tool runs but exits nonzero,
apply_pitch raises exactly one fatal RuntimeError carrying the invoked command
line and the exit code; the tool was launched exactly once (never retried) and
the temporary directory is gone on return. -/
theorem apply_pitch_nonzero_exit (env : PitchEnv)
    (hex : env.exeExists = true) (hmk : env.mkdtempOk = true)
    (hscp : env.scpWriteOk = true) (hsp : env.spawnOk = true)
    (hrc : env.returncode ≠ 0) :
    (apply_pitch env).1
        = Except.error (PyError.runtimeError (pitchCommand env) env.returncode)
      ∧ (apply_pitch env).2.spawnCount = 1
      ∧ (apply_pitch env).2.tempdirExists = false := by
  simp [apply_pitch, pitchTryBody, hex, hmk, hscp, hsp, hrc]

theorem apply_pitch_nonzero_exit_witness :
    (apply_pitch ⟨"/opt/kaldi", "x.wav", 16000, true, true, "/tmp/t", true, true, 7,
        true, []⟩).1
        = Except.error
            (PyError.runtimeError
              (pitchCommand ⟨"/opt/kaldi", "x.wav", 16000, true, true, "/tmp/t",
                true, true, 7, true, []⟩) 7)
      ∧ (apply_pitch ⟨"/opt/kaldi", "x.wav", 16000, true, true, "/tmp/t", true, true,
          7, true, []⟩).2.spawnCount = 1
      ∧ (apply_pitch ⟨"/opt/kaldi", "x.wav", 16000, true, true, "/tmp/t", true, true,
          7, true, []⟩).2.tempdirExists = false :=
  apply_pitch_nonzero_exit _ rfl rfl rfl rfl (by decide)

/-- C10: when the tool succeeds and its output parses, apply_pitch returns the
two column sequences exactly when the table has at least two data rows; with
at most one data row numpy squeezes the table to 1-D and the two-index column
extraction raises IndexError instead of returning two short sequences. -/
theorem apply_pitch_row_parsing (env : PitchEnv)
    (hex : env.exeExists = true) (hmk : env.mkdtempOk = true)
    (hscp : env.scpWriteOk = true) (hsp : env.spawnOk = true)
    (hrc : env.returncode = 0) (hld : env.loadtxtOk = true) :
    (2 ≤ env.outputRows.length →
      (apply_pitch env).1
        = Except.ok (env.outputRows.map Prod.fst, env.outputRows.map Prod.snd))
    ∧ (env.outputRows.length ≤ 1 →
      (apply_pitch env).1 = Except.error PyError.indexError) := by
  have hbody : (apply_pitch env).1 = extractColumns (npLoadtxt env.outputRows) := by
    simp [apply_pitch, pitchTryBody, hex, hmk, hscp, hsp, hrc, hld]
  rw [hbody]
  generalize env.outputRows = rows
  rcases rows with _ | ⟨a, _ | ⟨b, t⟩⟩
  · exact ⟨fun h => by simp at h, fun _ => rfl⟩
  · exact ⟨fun h => by simp at h, fun _ => rfl⟩
  · refine ⟨fun _ => rfl, fun h => by simp at h⟩

theorem apply_pitch_row_parsing_witness :
    (apply_pitch ⟨"/opt/kaldi", "x.wav", 16000, true, true, "/tmp/t", true, true, 0,
        true, [(1, 2), (3, 4)]⟩).1
      = Except.ok ([(1 : ℚ), 3], [(2 : ℚ), 4]) :=
  (apply_pitch_row_parsing _ rfl rfl rfl rfl rfl rfl).1 (by decide)

/-- C9 counterexample: load_audio on a decoded two-channel file returns the
data unchanged with no error, so it does not surface a format error on
non-mono input. -/
theorem load_audio_multichannel_claim_false :
    channelCount (AudioData.multi [[1, 2], [3, 4]]) = 2
    ∧ load_audio (some ⟨AudioData.multi [[1, 2], [3, 4]], 16000⟩)
        = Except.ok (AudioData.multi [[1, 2], [3, 4]], 16000) :=
  ⟨rfl, rfl⟩

/-- C9 amended: load_audio returns whatever soundfile decoded, unchanged,
together with the sample rate, for every channel count: it neither mixes
channels nor raises a format error on multi-channel input. -/
theorem load_audio_passthrough (r : SoundFileOutput) :
    load_audio (some r) = Except.ok (r.data, r.sampleFrequency) := rfl

/-- C7: a compression identifier that is neither "log" nor "cubic" (None or
any unknown string) does not raise: the KeyError is swallowed and
apply_gammatone returns exactly the no-compression result. -/
theorem apply_gammatone_unknown_compression (data : List ℚ) (fs : ℚ) (nb : Nat)
    (lowCf wt ot : ℚ) (c : Option String)
    (h1 : c ≠ some "log") (h2 : c ≠ some "cubic") :
    apply_gammatone data fs nb lowCf wt ot c
      = apply_gammatone data fs nb lowCf wt ot none := by
  simp [apply_gammatone, compressLookup, h1, h2]

theorem apply_gammatone_unknown_compression_witness :
    apply_gammatone [1] 16000 2 20 (1 / 2) (1 / 10) (some "none")
      = apply_gammatone [1] 16000 2 20 (1 / 2) (1 / 10) none :=
  apply_gammatone_unknown_compression _ _ _ _ _ _ _ (by decide) (by decide)

/-- C1 counterexample: with a 10-sample waveform at 10 Hz, 3 channels, 0.5 s
window and 0.1 s advance, the energy matrix has 3 rows (the channel count) and
6 columns (the time frames), so its column count differs from nb_channels: the
frequency axis is the row axis, not the column axis. -/
theorem gtgramNWin_example : gtgramNWin 10 (1 / 2) = 5 := by
  simp only [gtgramNWin, roundHalfAwayFromZero]
  rw [if_neg (by norm_num)]
  norm_num

theorem gtgramHop_example : gtgramHop 10 (1 / 10) = 1 := by
  simp only [gtgramHop, roundHalfAwayFromZero]
  rw [if_neg (by norm_num)]
  norm_num

theorem gtgramNCols_example : gtgramNCols 10 10 (1 / 2) (1 / 10) = 6 := by
  rw [gtgramNCols, gtgramNWin_example, gtgramHop_example]
  norm_num

theorem apply_gammatone_shape_claim_false :
    (apply_gammatone (List.replicate 10 0) 10 3 1 (1 / 2) (1 / 10) none).1.length = 3
    ∧ ((apply_gammatone (List.replicate 10 0) 10 3 1 (1 / 2) (1 / 10)
          none).1.getD 0 []).length = 6
    ∧ (6 : Nat) ≠ 3 := by
  have hn : (gtgramNCols (List.replicate (10 : Nat) (0 : ℚ)).length 10 (1 / 2)
      (1 / 10)).toNat = 6 := by
    rw [List.length_replicate, gtgramNCols_example]
    rfl
  refine ⟨?_, ?_, by decide⟩
  · simp [apply_gammatone, gtgram, compressLookup]
  · simp only [apply_gammatone, gtgram, compressLookup, hn]
    decide

/-- C1 amended: for every waveform and valid filterbank parameters (window no
longer than the signal, positive advance), the energy matrix has row count
equal to nb_channels (rows are frequency channels) and every row has the same
length, the time-frame count, which is the deterministic function
gtgramNCols of the waveform length, sample rate, window duration and overlap
duration alone. -/
theorem apply_gammatone_shape (data : List ℚ) (fs : ℚ) (nb : Nat)
    (lowCf wt ot : ℚ) (c : Option String)
    (hwin : gtgramNWin fs wt ≤ (data.length : Int))
    (hhop : 0 < gtgramHop fs ot) :
    (apply_gammatone data fs nb lowCf wt ot c).1.length = nb
    ∧ ∀ row ∈ (apply_gammatone data fs nb lowCf wt ot c).1,
        row.length = (gtgramNCols data.length fs wt ot).toNat := by
  rcases hcl : compressLookup c with _ | f
  · constructor
    · simp [apply_gammatone, gtgram, hcl]
    · intro row hrow
      simp [apply_gammatone, gtgram, hcl, List.mem_reverse, List.mem_map] at hrow
      obtain ⟨i, _, rfl⟩ := hrow
      simp
  · constructor
    · simp [apply_gammatone, gtgram, hcl]
    · intro row hrow
      simp [apply_gammatone, gtgram, hcl, List.mem_reverse, List.mem_map] at hrow
      obtain ⟨i, _, rfl⟩ := hrow
      simp

theorem apply_gammatone_shape_witness :
    (apply_gammatone (List.replicate 10 0) 10 3 1 (1 / 2) (1 / 10) none).1.length
      = 3 :=
  (apply_gammatone_shape (List.replicate 10 0) 10 3 1 (1 / 2) (1 / 10) none
    (by rw [gtgramNWin_example]; simp)
    (by rw [gtgramHop_example]; norm_num)).1

/-- C8 counterexample: at the energy value -8 the code's cubic compression is
NaN (undefined), although the real cube root of -8 is the finite real -2; so
cubic compression is not defined for negative inputs. -/
theorem cubic_compression_negative_claim_false :
    cubicCompression (-8) = none ∧ ((-2 : ℝ)) ^ (3 : ℕ) = -8 := by
  constructor
  · simp only [cubicCompression]
    rw [if_neg (by norm_num)]
  · norm_num

/-- C8 amended: cubic compression computes x ** (1/3) under numpy semantics:
for nonnegative x it yields the nonnegative real cube root of x (so the sign
is preserved there), and for negative x it yields NaN (none), not the real
cube root. -/
theorem cubic_compression_semantics (x : ℝ) :
    (0 ≤ x → ∃ y, cubicCompression x = some y ∧ 0 ≤ y ∧ y ^ (3 : ℕ) = x)
    ∧ (x < 0 → cubicCompression x = none) := by
  constructor
  · intro hx
    refine ⟨x ^ ((1 : ℝ) / 3), ?_, ?_, ?_⟩
    · simp only [cubicCompression]
      rw [if_pos hx]
    · exact Real.rpow_nonneg hx _
    · rw [← Real.rpow_natCast (x ^ ((1 : ℝ) / 3)) 3, ← Real.rpow_mul hx]
      norm_num
  · intro hx
    simp only [cubicCompression]
    rw [if_neg (by linarith)]

/-! Trigonometric groundwork for the DCT orthonormality claim. -/

theorem cos_mul_cos_form (a b : ℝ) :
    Real.cos a * Real.cos b = (Real.cos (a + b) + Real.cos (a - b)) / 2 := by
  rw [Real.cos_add, Real.cos_sub]
  ring

theorem two_sin_sum_cos (θ : ℝ) (N : Nat) :
    2 * Real.sin θ * ∑ n ∈ Finset.range N, Real.cos ((2 * (n : ℝ) + 1) * θ)
      = Real.sin (2 * (N : ℝ) * θ) := by
  induction N with
  | zero => simp
  | succ m ih =>
    rw [Finset.sum_range_succ]
    have h1 := Real.sin_add ((2 * (m : ℝ) + 1) * θ) θ
    have h2 := Real.sin_sub ((2 * (m : ℝ) + 1) * θ) θ
    have e1 : (2 * (m : ℝ) + 1) * θ + θ = 2 * ((m : ℝ) + 1) * θ := by ring
    have e2 : (2 * (m : ℝ) + 1) * θ - θ = 2 * (m : ℝ) * θ := by ring
    rw [e1] at h1
    rw [e2] at h2
    push_cast
    linear_combination ih - h1 + h2

theorem oddCosSum_zero_arg (N : Nat) : oddCosSum N 0 = N := by
  simp [oddCosSum]

theorem oddCosSum_eq_zero (N m : Nat) (hm0 : 0 < m) (hm : m < 2 * N) :
    oddCosSum N m = 0 := by
  have hN : 0 < N := by omega
  have hNR : (0 : ℝ) < (N : ℝ) := by exact_mod_cast hN
  have hmR : (0 : ℝ) < (m : ℝ) := by exact_mod_cast hm0
  have hm2 : (m : ℝ) < 2 * (N : ℝ) := by exact_mod_cast hm
  have h2N : (0 : ℝ) < 2 * (N : ℝ) := by linarith
  have hθ0 : 0 < (m : ℝ) * Real.pi / (2 * (N : ℝ)) :=
    div_pos (mul_pos hmR Real.pi_pos) h2N
  have hθπ : (m : ℝ) * Real.pi / (2 * (N : ℝ)) < Real.pi := by
    rw [div_lt_iff h2N]
    nlinarith [Real.pi_pos]
  have hs : 0 < Real.sin ((m : ℝ) * Real.pi / (2 * (N : ℝ))) :=
    Real.sin_pos_of_pos_of_lt_pi hθ0 hθπ
  have hkey := two_sin_sum_cos ((m : ℝ) * Real.pi / (2 * (N : ℝ))) N
  have hz : Real.sin (2 * (N : ℝ) * ((m : ℝ) * Real.pi / (2 * (N : ℝ)))) = 0 := by
    have he : 2 * (N : ℝ) * ((m : ℝ) * Real.pi / (2 * (N : ℝ))) = (m : ℝ) * Real.pi := by
      field_simp
    rw [he]
    exact Real.sin_nat_mul_pi m
  rw [hz] at hkey
  rcases mul_eq_zero.mp hkey with h | h
  · exact absurd h (by nlinarith)
  · exact h

theorem sum_dctCos_mul_le (N k l : Nat) (hlk : l ≤ k) :
    ∑ n ∈ Finset.range N, dctCos N k n * dctCos N l n
      = (oddCosSum N (k + l) + oddCosSum N (k - l)) / 2 := by
  have point : ∀ n ∈ Finset.range N,
      dctCos N k n * dctCos N l n
        = (Real.cos ((2 * (n : ℝ) + 1) * (((k + l : ℕ) : ℝ) * Real.pi / (2 * (N : ℝ))))
            + Real.cos ((2 * (n : ℝ) + 1)
                * (((k - l : ℕ) : ℝ) * Real.pi / (2 * (N : ℝ))))) / 2 := by
    intro n _
    simp only [dctCos]
    rw [cos_mul_cos_form]
    have e1 : Real.pi * (k : ℝ) * (2 * (n : ℝ) + 1) / (2 * (N : ℝ))
        + Real.pi * (l : ℝ) * (2 * (n : ℝ) + 1) / (2 * (N : ℝ))
        = (2 * (n : ℝ) + 1) * (((k + l : ℕ) : ℝ) * Real.pi / (2 * (N : ℝ))) := by
      push_cast
      ring
    have e2 : Real.pi * (k : ℝ) * (2 * (n : ℝ) + 1) / (2 * (N : ℝ))
        - Real.pi * (l : ℝ) * (2 * (n : ℝ) + 1) / (2 * (N : ℝ))
        = (2 * (n : ℝ) + 1) * (((k - l : ℕ) : ℝ) * Real.pi / (2 * (N : ℝ))) := by
      push_cast [Nat.cast_sub hlk]
      ring
    rw [e1, e2]
  rw [Finset.sum_congr rfl point, ← Finset.sum_div, Finset.sum_add_distrib]
  rfl

theorem sum_dctCos_sq (N k : Nat) (hk : k < N) :
    ∑ n ∈ Finset.range N, dctCos N k n * dctCos N k n
      = if k = 0 then (N : ℝ) else (N : ℝ) / 2 := by
  rw [sum_dctCos_mul_le N k k le_rfl, Nat.sub_self, oddCosSum_zero_arg]
  by_cases hk0 : k = 0
  · subst hk0
    rw [if_pos rfl]
    rw [show (0 + 0 : ℕ) = 0 from rfl, oddCosSum_zero_arg]
    ring
  · rw [if_neg hk0, oddCosSum_eq_zero N (k + k) (by omega) (by omega)]
    ring

theorem sum_dctCos_mul_ne (N k l : Nat) (hk : k < N) (hl : l < N) (hne : k ≠ l) :
    ∑ n ∈ Finset.range N, dctCos N k n * dctCos N l n = 0 := by
  rcases Nat.lt_or_ge l k with hlt | hge
  · rw [sum_dctCos_mul_le N k l hlt.le,
      oddCosSum_eq_zero N (k + l) (by omega) (by omega),
      oddCosSum_eq_zero N (k - l) (by omega) (by omega)]
    norm_num
  · have hlt : k < l := by omega
    have hswap := sum_dctCos_mul_le N l k hlt.le
    calc ∑ n ∈ Finset.range N, dctCos N k n * dctCos N l n
        = ∑ n ∈ Finset.range N, dctCos N l n * dctCos N k n := by
          exact Finset.sum_congr rfl fun n _ => mul_comm _ _
      _ = (oddCosSum N (l + k) + oddCosSum N (l - k)) / 2 := hswap
      _ = 0 := by
          rw [oddCosSum_eq_zero N (l + k) (by omega) (by omega),
            oddCosSum_eq_zero N (l - k) (by omega) (by omega)]
          norm_num

theorem dctOrtho_rows_orthonormal (N k l : Nat) (hk : k < N) (hl : l < N) :
    ∑ n ∈ Finset.range N, dctOrthoEntry N k n * dctOrthoEntry N l n
      = if k = l then (1 : ℝ) else 0 := by
  have hN : 0 < N := by omega
  have hNR : (0 : ℝ) < (N : ℝ) := by exact_mod_cast hN
  have factor : ∀ n ∈ Finset.range N,
      dctOrthoEntry N k n * dctOrthoEntry N l n
        = 2 * orthoScale N k * (2 * orthoScale N l) * (dctCos N k n * dctCos N l n) := by
    intro n _
    simp only [dctOrthoEntry]
    ring
  rw [Finset.sum_congr rfl factor, ← Finset.mul_sum]
  by_cases hkl : k = l
  · subst hkl
    rw [sum_dctCos_sq N k hk, if_pos rfl]
    by_cases hk0 : k = 0
    · subst hk0
      rw [if_pos rfl]
      have hsc : orthoScale N 0 = Real.sqrt (1 / (4 * (N : ℝ))) := by
        simp [orthoScale]
      rw [hsc]
      have hsq : Real.sqrt (1 / (4 * (N : ℝ))) * Real.sqrt (1 / (4 * (N : ℝ)))
          = 1 / (4 * (N : ℝ)) := Real.mul_self_sqrt (by positivity)
      have hre : 2 * Real.sqrt (1 / (4 * (N : ℝ))) * (2 * Real.sqrt (1 / (4 * (N : ℝ))))
            * (N : ℝ)
          = 4 * (Real.sqrt (1 / (4 * (N : ℝ))) * Real.sqrt (1 / (4 * (N : ℝ)))) * (N : ℝ) := by
        ring
      rw [hre, hsq]
      field_simp
    · rw [if_neg hk0]
      have hsc : orthoScale N k = Real.sqrt (1 / (2 * (N : ℝ))) := by
        simp [orthoScale, hk0]
      rw [hsc]
      have hsq : Real.sqrt (1 / (2 * (N : ℝ))) * Real.sqrt (1 / (2 * (N : ℝ)))
          = 1 / (2 * (N : ℝ)) := Real.mul_self_sqrt (by positivity)
      have hre : 2 * Real.sqrt (1 / (2 * (N : ℝ))) * (2 * Real.sqrt (1 / (2 * (N : ℝ))))
            * ((N : ℝ) / 2)
          = 2 * (Real.sqrt (1 / (2 * (N : ℝ))) * Real.sqrt (1 / (2 * (N : ℝ)))) * (N : ℝ) := by
        ring
      rw [hre, hsq]
      field_simp
  · rw [sum_dctCos_mul_ne N k l hk hl hkl, if_neg hkl, mul_zero]

theorem matEntry_scipyDct2Ortho (x : List (List ℝ)) (k j : Nat)
    (hk : k < x.length) (hj : j < (x.getD 0 []).length) :
    matEntry (scipyDct2Ortho x) k j
      = ∑ n ∈ Finset.range x.length, dctOrthoEntry x.length k n * matEntry x n j := by
  have houter : (scipyDct2Ortho x).getD k []
      = (List.range (x.getD 0 []).length).map fun j =>
          orthoScale x.length k *
            (2 * ∑ n ∈ Finset.range x.length, matEntry x n j * dctCos x.length k n) := by
    rw [scipyDct2Ortho, List.getD_eq_getElem?_getD, List.getElem?_map,
      List.getElem?_range hk]
    rfl
  rw [matEntry, houter, List.getD_eq_getElem?_getD, List.getElem?_map,
    List.getElem?_range hj]
  show orthoScale x.length k *
      (2 * ∑ n ∈ Finset.range x.length, matEntry x n j * dctCos x.length k n) = _
  rw [Finset.mul_sum, Finset.mul_sum]
  exact Finset.sum_congr rfl fun n _ => by rw [dctOrthoEntry]; ring

/-- C4 counterexample: apply_dct called with the normalization value
"orthonormal" returns the unnormalized transform (here the 1-point DCT of
[[1]] is [[2]]), while the ortho-scaled transform of the same input is [[1]];
so the string "orthonormal" does not select orthonormal scaling. -/
theorem apply_dct_orthonormal_string_claim_false :
    apply_dct [[(1 : ℝ)]] (some "orthonormal") 1 = [[2]]
    ∧ scipyDct2Ortho [[(1 : ℝ)]] = [[1]]
    ∧ (2 : ℝ) ≠ 1 := by
  have hcos : dctCos 1 0 0 = 1 := by
    simp [dctCos]
  have hscale : orthoScale 1 0 = 1 / 2 := by
    simp only [orthoScale, if_pos rfl]
    rw [show (1 / (4 * ((1 : Nat) : ℝ)) : ℝ) = (1 / 2) ^ 2 by norm_num]
    exact Real.sqrt_sq (by norm_num)
  have hr1 : List.range 1 = [0] := rfl
  refine ⟨?_, ?_, by norm_num⟩
  · have hn : apply_dct [[(1 : ℝ)]] (some "orthonormal") 1
        = (scipyDct2 [[(1 : ℝ)]]).take 1 := by
      simp [apply_dct, scipyDct]
    rw [hn]
    simp [scipyDct2, matEntry, hr1, hcos]
  · simp [scipyDct2Ortho, matEntry, hr1, hcos, hscale]

/-- C4 amended: apply_dct with the normalization value "ortho" returns the
truncated ortho-scaled type-II DCT, whose effective coefficient matrix
dctOrthoEntry has orthonormal rows; any other normalization value, including
the string "orthonormal", yields the truncated unnormalized transform. -/
theorem apply_dct_normalization (data : List (List ℝ)) (size : Nat)
    (norm : Option String) :
    (norm ≠ some "ortho" → apply_dct data norm size = (scipyDct2 data).take size)
    ∧ apply_dct data (some "ortho") size = (scipyDct2Ortho data).take size
    ∧ (∀ k j, k < data.length → j < (data.getD 0 []).length →
        matEntry (scipyDct2Ortho data) k j
          = ∑ n ∈ Finset.range data.length,
              dctOrthoEntry data.length k n * matEntry data n j)
    ∧ (∀ k l, k < data.length → l < data.length →
        ∑ n ∈ Finset.range data.length,
            dctOrthoEntry data.length k n * dctOrthoEntry data.length l n
          = if k = l then (1 : ℝ) else 0) := by
  refine ⟨?_, ?_, ?_, ?_⟩
  · intro h
    simp [apply_dct, scipyDct, h]
  · simp [apply_dct, scipyDct]
  · intro k j hk hj
    exact matEntry_scipyDct2Ortho data k j hk hj
  · intro k l hk hl
    exact dctOrtho_rows_orthonormal data.length k l hk hl

/-- C5: the apply_dct output has min(size, input rows) rows — the slice
silently clamps, no error is raised — and every output row keeps the input
column count (the time axis is unchanged). -/
theorem apply_dct_shape (data : List (List ℝ)) (norm : Option String)
    (size cols : Nat) (hrect : ∀ r ∈ data, r.length = cols) (hne : data ≠ []) :
    (apply_dct data norm size).length = min size data.length
    ∧ ∀ r ∈ apply_dct data norm size, r.length = cols := by
  have hc : (data.getD 0 []).length = cols := by
    cases data with
    | nil => exact absurd rfl hne
    | cons d t => exact hrect d (List.mem_cons_self d t)
  have hlen : ∀ nrm : Option String, (scipyDct nrm data).length = data.length := by
    intro nrm
    rw [scipyDct]
    split <;> simp [scipyDct2, scipyDct2Ortho]
  have hmem : ∀ nrm : Option String, ∀ r ∈ scipyDct nrm data,
      r.length = (data.getD 0 []).length := by
    intro nrm r hr
    rw [scipyDct] at hr
    by_cases ho : nrm = some "ortho"
    · rw [if_pos ho, scipyDct2Ortho] at hr
      obtain ⟨k, _, rfl⟩ := List.mem_map.mp hr
      simp only [List.length_map, List.length_range]
    · rw [if_neg ho, scipyDct2] at hr
      obtain ⟨k, _, rfl⟩ := List.mem_map.mp hr
      simp only [List.length_map, List.length_range]
  constructor
  · rw [apply_dct, List.length_take, hlen]
  · intro r hr
    rw [apply_dct] at hr
    rw [← hc]
    exact hmem _ r (List.mem_of_mem_take hr)

theorem apply_dct_shape_witness :
    (apply_dct [[(1 : ℝ), 2], [3, 4]] none 5).length = min 5 2 :=
  (apply_dct_shape [[(1 : ℝ), 2], [3, 4]] none 5 2 (by simp) (by simp)).1

end Prosolia
